/-
Verification of the rstore key/value, time-series and event-sequence store.

The definitions below are a shallow embedding of the Python sources
(rstore/__init__.py and rstore/_sqlite_store.py).  Strings are modelled as
lists of characters, the per-key backend tables as sorted association
lists, and Python exceptions as Except values.  Definitions named after
the source keep the source's behaviour, including its treatment of falsy
arguments (None and 0 are both falsy in Python).
-/
import Mathlib

set_option maxHeartbeats 1000000
set_option synthInstance.maxHeartbeats 1000000
set_option linter.unusedVariables false

abbrev Str := List Char

deriving instance DecidableEq for Except

/-- Error kinds surfaced by the store layer.  frozenStore and storeIntegrity
model the exception classes of the same names; keyError, typeError,
indexError and invalidOp model the corresponding uncaught Python
exceptions (invalidOp is the assert on an unrecognized operator). -/
inductive SErr
  | frozenStore
  | storeIntegrity
  | keyError
  | typeError
  | indexError
  | invalidOp
deriving DecidableEq

/-! ## Namespace codec (Store._ns_key / Store._un_ns_key) -/

/-- Python str.replace on a single character: every dot in the namespace is
replaced by two underscores (Store.__init__). -/
def replDots : Str → Str
  | [] => []
  | c :: rest => if c = '.' then '_' :: '_' :: replDots rest else c :: replDots rest

/-- Namespace normalization performed in Store.__init__:
prepend two underscores and replace every dot by two underscores. -/
def normNs (ns : Str) : Str := '_' :: '_' :: replDots ns

/-- Store._ns_key: the namespaced key is the normalized namespace, a
two-underscore separator, then the logical key. -/
def nsKey (ns key : Str) : Str := ns ++ '_' :: '_' :: key

/-- Python s.rsplit(sep, maxsplit=1) for the separator of two underscores:
split at the rightmost occurrence of two consecutive underscores, or return
none when no occurrence exists. -/
def rsplitUU : Str → Option (Str × Str)
  | [] => none
  | [_] => none
  | c :: d :: rest =>
    match rsplitUU (d :: rest) with
    | some (l, r) => some (c :: l, r)
    | none => if c = '_' ∧ d = '_' then some ([], rest) else none

/-- Store._un_ns_key: rsplit the namespaced key at the rightmost
two-underscore separator and demand that the left part equals the store's
namespace; the assertion failure is modelled as none. -/
def unNsKey (ns nsk : Str) : Option Str :=
  match rsplitUU nsk with
  | some (l, r) => if l = ns then some r else none
  | none => none

/-! ## Key/value facet

The key/value table of one namespace is modelled as an association list
with unique keys.  Values are opaque (the serialization/encryption
envelope is invertible and orthogonal to these claims). -/

section KVModel

variable {V : Type}

/-- Python dict item assignment, also sqlite INSERT OR REPLACE on the kv
table: replace in place when the key is present, append otherwise. -/
def dictSet : List (Str × V) → Str → V → List (Str × V)
  | [], k, v => [(k, v)]
  | (k', v') :: rest, k, v =>
    if k' = k then (k, v) :: rest else (k', v') :: dictSet rest k v

/-- Python dict item lookup. -/
def dictGet (st : List (Str × V)) (k : Str) : Option V :=
  (st.find? (fun e => decide (e.1 = k))).map (·.2)

/-- Python del on a dict: none models the KeyError on a missing key. -/
def dictDel (st : List (Str × V)) (k : Str) : Option (List (Str × V)) :=
  if st.any (fun e => decide (e.1 = k)) then
    some (st.filter (fun e => decide (e.1 ≠ k)))
  else none

/-- Store.set: reject with FrozenStore on a read-only store, otherwise
upsert the value. -/
def setOp (frozen : Bool) (kv : List (Str × V)) (k : Str) (v : V) :
    Except SErr Unit × List (Str × V) :=
  if frozen then (.error .frozenStore, kv) else (.ok (), dictSet kv k v)

/-- Store.delete: reject with FrozenStore on a read-only store, otherwise
delete the given keys (a no-op when no key is given). -/
def deleteOp (frozen : Bool) (kv : List (Str × V)) (ks : List Str) :
    Except SErr Unit × List (Str × V) :=
  if frozen then (.error .frozenStore, kv)
  else (.ok (), if ks.isEmpty then kv else kv.filter (fun e => decide (e.1 ∉ ks)))

end KVModel

/-! ## Glob pattern search (Store.find)

Store.find translates the glob pattern by escaping dots and turning every
star into dot-star, then keeps the keys accepted by Python re.match, which
anchors at the start only and treats the untranslated question mark as a
zero-or-one quantifier.  The matcher below models Python's regex engine on
the token forms such translated patterns can contain: literals, escaped
literals, the dot, and the star / question-mark quantifiers (a lazy
quantifier, i.e. a question mark directly after a quantifier, accepts the
same strings as the greedy one and is lexed to the greedy token).  Other
regex metacharacters are modelled as plain literals, so the theorems about
find restrict patterns to globSafe characters, where the model and the
Python engine agree. -/

/-- Regex atom: a literal character or the dot. -/
inductive RAtom
  | lit (c : Char)
  | dot
deriving DecidableEq

/-- Regex token: an atom, starred atom, or optional atom. -/
inductive RTok
  | once (a : RAtom)
  | star (a : RAtom)
  | opt (a : RAtom)
deriving DecidableEq

/-- Python str.replace of every dot by backslash-dot. -/
def escDots : Str → Str
  | [] => []
  | c :: rest => if c = '.' then '\\' :: '.' :: escDots rest else c :: escDots rest

/-- Python str.replace of every star by dot-star. -/
def starDots : Str → Str
  | [] => []
  | c :: rest => if c = '*' then '.' :: '*' :: starDots rest else c :: starDots rest

/-- Store.find's pattern translation: escape dots first, then expand
stars. -/
def translateGlob (p : Str) : Str := starDots (escDots p)

/-- Lex a translated pattern into regex tokens; none models re.error.
A quantifier may carry one lazy question mark, which changes nothing for
plain acceptance. -/
def lexRe : Str → Option (List RTok)
  | [] => some []
  | '\\' :: c :: '*' :: '?' :: rest => (lexRe rest).map (RTok.star (.lit c) :: ·)
  | '\\' :: c :: '*' :: rest => (lexRe rest).map (RTok.star (.lit c) :: ·)
  | '\\' :: c :: '?' :: '?' :: rest => (lexRe rest).map (RTok.opt (.lit c) :: ·)
  | '\\' :: c :: '?' :: rest => (lexRe rest).map (RTok.opt (.lit c) :: ·)
  | '\\' :: c :: rest => (lexRe rest).map (RTok.once (.lit c) :: ·)
  | ['\\'] => none
  | '.' :: '*' :: '?' :: rest => (lexRe rest).map (RTok.star .dot :: ·)
  | '.' :: '*' :: rest => (lexRe rest).map (RTok.star .dot :: ·)
  | '.' :: '?' :: '?' :: rest => (lexRe rest).map (RTok.opt .dot :: ·)
  | '.' :: '?' :: rest => (lexRe rest).map (RTok.opt .dot :: ·)
  | '.' :: rest => (lexRe rest).map (RTok.once .dot :: ·)
  | '*' :: _ => none
  | '?' :: _ => none
  | c :: '*' :: '?' :: rest => (lexRe rest).map (RTok.star (.lit c) :: ·)
  | c :: '*' :: rest => (lexRe rest).map (RTok.star (.lit c) :: ·)
  | c :: '?' :: '?' :: rest => (lexRe rest).map (RTok.opt (.lit c) :: ·)
  | c :: '?' :: rest => (lexRe rest).map (RTok.opt (.lit c) :: ·)
  | c :: rest => (lexRe rest).map (RTok.once (.lit c) :: ·)

/-- True when a character keeps its literal meaning under the glob
translation followed by Python's regex engine: everything except the
regex metacharacters that the translation does not handle. -/
def globSafe (c : Char) : Bool :=
  !(c = '^' || c = '$' || c = '+' || c = '\\' || c = '|' ||
    c = '(' || c = ')' || c = '[' || c = ']' || c.toNat = 123 || c.toNat = 125)

/-- Atom acceptance: the regex dot matches every character except the
newline (re.DOTALL is off). -/
def atomMatch : RAtom → Char → Bool
  | .lit c, c' => c = c'
  | .dot, c' => c' ≠ '\n'

/-- All ways to cut a string into a prefix and the matching suffix. -/
def splits : Str → List (Str × Str)
  | [] => [([], [])]
  | c :: s => ([], c :: s) :: (splits s).map (fun pr => (c :: pr.1, pr.2))

/-- Executable regex acceptance with re.match semantics: the tokens must
consume a prefix of the string, the rest is ignored.  A starred atom
consumes any run of characters the atom accepts. -/
def reMatch : List RTok → Str → Bool
  | [], _ => true
  | .once a :: ts, [] => false
  | .once a :: ts, c :: s => atomMatch a c && reMatch ts s
  | .opt a :: ts, [] => reMatch ts []
  | .opt a :: ts, c :: s => reMatch ts (c :: s) || (atomMatch a c && reMatch ts s)
  | .star a :: ts, s =>
    (splits s).any (fun pr => pr.1.all (atomMatch a) && reMatch ts pr.2)

/-- Declarative acceptance relation for token lists: the whole string is
consumed.  This is the specification the executable matcher is proved
against. -/
inductive RLang : List RTok → Str → Prop
  | nil : RLang [] []
  | once {a c ts s} : atomMatch a c = true → RLang ts s → RLang (.once a :: ts) (c :: s)
  | optSkip {a ts s} : RLang ts s → RLang (.opt a :: ts) s
  | optTake {a c ts s} : atomMatch a c = true → RLang ts s → RLang (.opt a :: ts) (c :: s)
  | starSkip {a ts s} : RLang ts s → RLang (.star a :: ts) s
  | starTake {a c ts s} : atomMatch a c = true → RLang (.star a :: ts) s →
      RLang (.star a :: ts) (c :: s)

section FindModel

variable {V : Type}

/-- Store.find: with no pattern return every pair; with a pattern,
translate it, lex it (none models re.error) and keep the pairs whose key
re.match accepts. -/
def findOp (pat : Option Str) (kv : List (Str × V)) : Option (List (Str × V)) :=
  match pat with
  | none => some kv
  | some p =>
    match lexRe (translateGlob p) with
    | none => none
    | some toks => some (kv.filter (fun e => reMatch toks e.1))

end FindModel

/-- Glob matching as the specification sentence reads: star matches any
run of characters, the question mark exactly one character, every other
character itself, and the whole key must match. -/
def globSpecMatch : Str → Str → Bool
  | [], s => s.isEmpty
  | '*' :: p, s => (splits s).any (fun pr => globSpecMatch p pr.2)
  | '?' :: p, s =>
    (match s with
     | [] => false
     | _ :: s' => globSpecMatch p s')
  | c :: p, s =>
    (match s with
     | [] => false
     | c' :: s' => c = c' && globSpecMatch p s')

/-! ## Time-series facet

The backend table for one namespaced key is an association list of
(timestamp, value) points, kept sorted by extend's insert-or-replace; the
first/last primitives take the extreme timestamp of the rows. -/

/-- Python falsy-or on optional integers, as used for freq or default and
end or start: None and the integer 0 both fall through to the default. -/
def pyOr (a d : Option Int) : Option Int :=
  match a with
  | none => d
  | some v => if v = 0 then d else some v

section TSModel

variable {V : Type}

/-- SqliteStore.ts_extend's INSERT OR REPLACE on the sorted point list. -/
def insPoint : List (Int × V) → Int × V → List (Int × V)
  | [], p => [p]
  | (t', v') :: rest, (t, v) =>
    if t = t' then (t, v) :: rest
    else if t < t' then (t, v) :: (t', v') :: rest
    else (t', v') :: insPoint rest (t, v)

/-- SqliteStore.ts_first: smallest stored timestamp, none when the key has
no points. -/
def tsFirstT (series : List (Int × V)) : Option Int := (series.map Prod.fst).min?

/-- SqliteStore.ts_last: largest stored timestamp. -/
def tsLastT (series : List (Int × V)) : Option Int := (series.map Prod.fst).max?

/-- SqliteStore.ts_range: the stored points with timestamp in the closed
window. -/
def tsWindow (series : List (Int × V)) (s e : Int) : List (Int × V) :=
  series.filter (fun p => decide (s ≤ p.1) && decide (p.1 ≤ e))

/-- Store.range's decimation loop: walk the points with a threshold step
(initially 0) and an emission count; emit a point when its timestamp is at
least step, stop as soon as the count reaches n when n was given, and
advance step to the emitted timestamp plus freq when a frequency is
active. -/
def decimate (n : Option Nat) (freq : Option Int) :
    Int → Nat → List (Int × V) → List (Int × V)
  | _, _, [] => []
  | step, cnt, (t, v) :: rest =>
    if step ≤ t then
      (t, v) ::
        (if n = some (cnt + 1) then []
         else
           decimate n freq
             (match freq with | some f => t + f | none => step) (cnt + 1) rest)
    else decimate n freq step cnt rest

/-- Store.range with both bounds already resolved: empty when end precedes
start, otherwise the decimated window; the effective frequency is the freq
argument unless falsy, then the store default. -/
def rangeEx (series : List (Int × V)) (s e : Int) (n : Option Nat)
    (freq dflt : Option Int) : List (Int × V) :=
  if e < s then [] else decimate n (pyOr freq dflt) 0 0 (tsWindow series s e)

/-- Store.first: resolve the smallest timestamp and rerun range over that
single timestamp; indexError models the uncaught IndexError when the
decimation drops the point (a negative timestamp stays below the initial
threshold 0). -/
def firstOp (series : List (Int × V)) (dflt : Option Int) :
    Except SErr (Option (Int × V)) :=
  match tsFirstT series with
  | none => .ok none
  | some t =>
    match rangeEx series t t none none dflt with
    | [] => .error .indexError
    | p :: _ => .ok (some p)

/-- Store.last, symmetric to first. -/
def lastOp (series : List (Int × V)) (dflt : Option Int) :
    Except SErr (Option (Int × V)) :=
  match tsLastT series with
  | none => .ok none
  | some t =>
    match rangeEx series t t none none dflt with
    | [] => .error .indexError
    | p :: _ => .ok (some p)

/-- Store.range with an explicit start but a possibly defaulted end. -/
def rangeFrom (series : List (Int × V)) (s : Int) (e : Option Int)
    (n : Option Nat) (freq dflt : Option Int) : Except SErr (List (Int × V)) :=
  match e with
  | some e' => .ok (rangeEx series s e' n freq dflt)
  | none =>
    match lastOp series dflt with
    | .error err => .error err
    | .ok none => .ok []
    | .ok (some q) => .ok (rangeEx series s q.1 n freq dflt)

/-- Store.range: default start to the first point's timestamp and end to
the last point's timestamp, then decimate the window. -/
def rangeOp (series : List (Int × V)) (s e : Option Int) (n : Option Nat)
    (freq dflt : Option Int) : Except SErr (List (Int × V)) :=
  match s with
  | some s' => rangeFrom series s' e n freq dflt
  | none =>
    match firstOp series dflt with
    | .error err => .error err
    | .ok none => .ok []
    | .ok (some p) => rangeFrom series p.1 e n freq dflt

/-- Python range(start, stop, step) over integers, as a mapped arithmetic
sequence; step 0 (a ValueError in Python) is modelled as the empty list. -/
def intRange (a b s : Int) : List Int :=
  if 0 < s then
    (List.range (((b - a).toNat + s.toNat - 1) / s.toNat)).map
      (fun k : Nat => a + (k : Int) * s)
  else if s < 0 then
    (List.range (((a - b).toNat + (-s).toNat - 1) / (-s).toNat)).map
      (fun k : Nat => a + (k : Int) * s)
  else []

/-- Store.missing: default a falsy end to start and a falsy freq to the
store default, fail when no frequency is known (the assert; the step-0
ValueError of the grid is also modelled as none), and return the grid
timestamps absent from the decimated range over the same window. -/
def missingOp (series : List (Int × V)) (start : Int) (e freq dflt : Option Int) :
    Option (List Int) :=
  let e' := match e with | none => start | some v => if v = 0 then start else v
  match pyOr freq dflt with
  | none => none
  | some f =>
    if f = 0 then none
    else
      let emitted := (rangeEx series start e' none (some f) dflt).map Prod.fst
      some ((intRange start (e' + f) f).filter (fun ts => decide (ts ∉ emitted)))

/-- Store.extend: reject on a frozen store, otherwise upsert every point. -/
def extendOp (frozen : Bool) (series : List (Int × V)) (pts : List (Int × V)) :
    Except SErr Unit × List (Int × V) :=
  if frozen then (.error .frozenStore, series) else (.ok (), pts.foldl insPoint series)

/-- Store.remove for one key once both bounds are known: delete the
points inside the closed window, or skip when end precedes start. -/
def removeCore (series : List (Int × V)) (s e : Int) :
    Except SErr Unit × List (Int × V) :=
  if e < s then (.ok (), series)
  else (.ok (), series.filter (fun p => !(decide (s ≤ p.1) && decide (p.1 ≤ e))))

/-- Store.remove for one key with a known start: default end to the last
point's timestamp, skipping the key when it has no points. -/
def removeFrom (series : List (Int × V)) (s : Int) (e : Option Int)
    (dflt : Option Int) : Except SErr Unit × List (Int × V) :=
  match e with
  | some e' => removeCore series s e'
  | none =>
    match lastOp series dflt with
    | .error err => (.error err, series)
    | .ok none => (.ok (), series)
    | .ok (some q) => removeCore series s q.1

/-- Store.remove for one key: reject on a frozen store before touching
anything, then resolve the bounds and delete the window. -/
def removeOp (frozen : Bool) (series : List (Int × V)) (s e : Option Int)
    (dflt : Option Int) : Except SErr Unit × List (Int × V) :=
  if frozen then (.error .frozenStore, series)
  else
    match s with
    | some s' => removeFrom series s' e dflt
    | none =>
      match firstOp series dflt with
      | .error err => (.error err, series)
      | .ok none => (.ok (), series)
      | .ok (some p) => removeFrom series p.1 e dflt

end TSModel

/-! ## Event-sequence facet

One namespaced key's slice of the event table is a list of groups, one per
timestamp ascending, each group holding that timestamp's rows
(item, operator tag, operand) with unique items — exactly the shape
SqliteStore.es_events returns (the table's primary key covers key,
timestamp, item and operator, and es_apply inserts each timestamp's dict
of items atomically).  The operator vocabulary is the closed set of
operator-module references; the constructor `other` stands for any
pickled object outside that set.  The value domain and the arithmetic of
the binary and unary operators are parameters (they are Python stdlib
semantics, not store code); none models the operator raising TypeError. -/

inductive Tag
  | set
  | del
  | add
  | concat
  | floordiv
  | mod
  | mul
  | pow
  | sub
  | truediv
  | neg
  | lnot
  | other (n : Nat)
deriving DecidableEq

section ESModel

variable {V : Type}
variable (bi : Tag → V → V → Option V) (un : Tag → V → Option V)

/-- One replay step of Store.past: dispatch on the operator tag exactly as
the replay loop does — assignment, deletion (KeyError when absent), the
eight binary updates (the item must already exist), the two unary updates
(operand ignored), and a fatal assert on any other tag. -/
def applyRow (st : List (Str × V)) (item : Str) (tg : Tag) (v : V) :
    Except SErr (List (Str × V)) :=
  match tg with
  | .set => .ok (dictSet st item v)
  | .del =>
    match dictDel st item with
    | some st' => .ok st'
    | none => .error .keyError
  | .add | .concat | .floordiv | .mod | .mul | .pow | .sub | .truediv =>
    match dictGet st item with
    | none => .error .keyError
    | some cur =>
      match bi tg cur v with
      | some w => .ok (dictSet st item w)
      | none => .error .typeError
  | .neg | .lnot =>
    match dictGet st item with
    | none => .error .keyError
    | some cur =>
      match un tg cur with
      | some w => .ok (dictSet st item w)
      | none => .error .typeError
  | .other _ => .error .invalidOp

/-- Replay the rows of one event (one timestamp's items, in stored
order) over the running state. -/
def groupReplay : List (Str × Tag × V) → List (Str × V) →
    Except SErr (List (Str × V))
  | [], st => .ok st
  | (item, tg, v) :: rest, st =>
    match applyRow bi un st item tg v with
    | .error e => .error e
    | .ok st' => groupReplay rest st'

/-- Replay a list of events group by group, as the loop in Store.past
does. -/
def logReplay : List (Int × List (Str × Tag × V)) → List (Str × V) →
    Except SErr (List (Str × V))
  | [], st => .ok st
  | (_, g) :: rest, st =>
    match groupReplay bi un g st with
    | .error e => .error e
    | .ok st' => logReplay rest st'

/-- Replay a flat, already ordered row list one row at a time.  This is
the reference fold the specification describes; past is proved equal to
it. -/
def rowsReplay : List (Int × Str × Tag × V) → List (Str × V) →
    Except SErr (List (Str × V))
  | [], st => .ok st
  | (_, item, tg, v) :: rest, st =>
    match applyRow bi un st item tg v with
    | .error e => .error e
    | .ok st' => rowsReplay rest st'

/-- Reference fold following the claim's words verbatim, where a delete
simply removes the item from the state (no error when it is absent). -/
def rowsReplayClaim : List (Int × Str × Tag × V) → List (Str × V) →
    Except SErr (List (Str × V))
  | [], st => .ok st
  | (_, item, tg, v) :: rest, st =>
    match tg with
    | .del => rowsReplayClaim rest (st.filter (fun e => decide (e.1 ≠ item)))
    | _ =>
      match applyRow bi un st item tg v with
      | .error e => .error e
      | .ok st' => rowsReplayClaim rest st'

/-- Flatten grouped events to rows, keeping the stored order. -/
def flattenLog : List (Int × List (Str × Tag × V)) → List (Int × Str × Tag × V)
  | [] => []
  | (t, g) :: rest => g.map (fun r => (t, r)) ++ flattenLog rest

/-- SqliteStore.es_events: filter the groups by the optional closed time
window; when an operator filter is given, keep only matching rows and drop
timestamps whose rows are all filtered away. -/
def esEvents (log : List (Int × List (Str × Tag × V))) (s e : Option Int)
    (ops : List Tag) : List (Int × List (Str × Tag × V)) :=
  let w := log.filter (fun gp =>
    (match s with | some sv => decide (sv ≤ gp.1) | none => true) &&
    (match e with | some ev => decide (gp.1 ≤ ev) | none => true))
  if ops.isEmpty then w
  else
    w.filterMap (fun gp =>
      let rows := gp.2.filter (fun r => ops.contains r.2.1)
      if rows.isEmpty then none else some (gp.1, rows))

/-- Store.events: none when the key has no recorded event at all (the
eventsequences membership test), otherwise the filtered groups. -/
def eventsOp (log : List (Int × List (Str × Tag × V))) (s e : Option Int)
    (ops : List Tag) : Option (List (Int × List (Str × Tag × V))) :=
  if log.isEmpty then none else some (esEvents log s e ops)

/-- Store.past: fetch the events up to time t (all of them when t is
none), return none when there are none, otherwise replay them in stored
order. -/
def pastOp (log : List (Int × List (Str × Tag × V))) (t : Option Int) :
    Except SErr (Option (List (Str × V))) :=
  match eventsOp log none t [] with
  | none => .ok none
  | some evs =>
    if evs.isEmpty then .ok none else (logReplay bi un evs []).map some

/-- Store.current is past with an unbounded time. -/
def currentOp (log : List (Int × List (Str × Tag × V))) :
    Except SErr (Option (List (Str × V))) :=
  pastOp bi un log none

/-- True when some event is already recorded at this timestamp. -/
def hasTs (log : List (Int × List (Str × Tag × V))) (t : Int) : Bool :=
  log.any (fun gp => decide (gp.1 = t))

/-- The rows recorded at one timestamp, if any. -/
def groupAt (log : List (Int × List (Str × Tag × V))) (t : Int) :
    Option (List (Str × Tag × V)) :=
  (log.find? (fun gp => decide (gp.1 = t))).map (·.2)

/-- Insert a new timestamp group keeping ascending order. -/
def insertGroup : List (Int × List (Str × Tag × V)) → Int →
    List (Str × Tag × V) → List (Int × List (Str × Tag × V))
  | [], t, g => [(t, g)]
  | (t', g') :: rest, t, g =>
    if t < t' then (t, g) :: (t', g') :: rest
    else (t', g') :: insertGroup rest t g

/-- SqliteStore.es_apply: count the rows already at this timestamp and
reject the whole append when any exists (the KeyError the store maps to
StoreIntegrity); otherwise insert one row per item — none at all when the
dict of changes is empty. -/
def esApplyB (log : List (Int × List (Str × Tag × V))) (t : Int)
    (rs : List (Str × Tag × V)) : Except Unit (List (Int × List (Str × Tag × V))) :=
  if hasTs log t then .error ()
  else .ok (if rs.isEmpty then log else insertGroup log t rs)

/-- The effective timestamp of Store.apply: t or the wall-clock now in
milliseconds, where Python's falsy-or sends both None and 0 to now. -/
def effTs (t : Option Int) (now : Int) : Int :=
  match t with
  | none => now
  | some v => if v = 0 then now else v

/-- Store.apply: append the normalized changes at the effective timestamp
(no frozen check appears in the source), surface the backend rejection as
StoreIntegrity with nothing written, and return the replayed current
state.  changes carries the already-normalized (item, tag, operand)
entries with unique items. -/
def applyOp (frozen : Bool) (log : List (Int × List (Str × Tag × V)))
    (changes : List (Str × Tag × V)) (t : Option Int) (now : Int) :
    Except SErr (Option (List (Str × V))) × List (Int × List (Str × Tag × V)) :=
  match esApplyB log (effTs t now) changes with
  | .error _ => (.error .storeIntegrity, log)
  | .ok log' => (currentOp bi un log', log')

/-- Store.prune for one key (no frozen check appears in the source):
when the replayed current state is missing or empty and removal is
requested, delete every recorded event of the key; a replay error
propagates. -/
def pruneOp (frozen : Bool) (log : List (Int × List (Str × Tag × V)))
    (remove : Bool) :
    Except SErr Unit × List (Int × List (Str × Tag × V)) :=
  match currentOp bi un log with
  | .error e => (.error e, log)
  | .ok st =>
    if (match st with | none => true | some m => m.isEmpty) && remove then
      (.ok (), [])
    else (.ok (), log)

end ESModel

/-- Store.discard: reject on a frozen store, otherwise erase the whole
namespace from all three tables. -/
def discardOp {V : Type} (frozen : Bool)
    (st : List (Str × V) × List (Int × V) × List (Int × List (Str × Tag × V))) :
    Except SErr Unit ×
      (List (Str × V) × List (Int × V) × List (Int × List (Str × Tag × V))) :=
  if frozen then (.error .frozenStore, st) else (.ok (), ([], [], []))

/-- Integer instantiation of the binary operators, for concrete runs of
the parametric theorems. -/
def intBin : Tag → Int → Int → Option Int
  | .add, a, b => some (a + b)
  | .sub, a, b => some (a - b)
  | .mul, a, b => some (a * b)
  | _, _, _ => none

/-- Integer instantiation of the unary operators. -/
def intUn : Tag → Int → Option Int
  | .neg, a => some (-a)
  | _, _ => none

/-- Events with timestamp inside the upper-bounded window, the set Store
.past replays. -/
def windowUpTo {V : Type} (log : List (Int × List (Str × Tag × V)))
    (t : Option Int) : List (Int × List (Str × Tag × V)) :=
  log.filter (fun gp => match t with | some tv => decide (gp.1 ≤ tv) | none => true)

/-! ## Theorems -/

theorem rsplitUU_cons_of_some {c : Char} {s l r : Str}
    (h : rsplitUU s = some (l, r)) :
    rsplitUU (c :: s) = some (c :: l, r) := by
  match s, h with
  | [], h => simp [rsplitUU] at h
  | [d], h => simp [rsplitUU] at h
  | d :: e :: rest, h =>
    have e1 : rsplitUU (c :: d :: e :: rest) =
        match rsplitUU (d :: e :: rest) with
        | some (l, r) => some (c :: l, r)
        | none => if c = '_' ∧ d = '_' then some ([], e :: rest) else none := rfl
    rw [e1, h]

theorem rsplitUU_sep {key : Str} (hnone : rsplitUU key = none)
    (hhead : key.head? ≠ some '_') :
    rsplitUU ('_' :: '_' :: key) = some ([], key) := by
  cases key with
  | nil => rfl
  | cons c tail =>
    have hc : c ≠ '_' := by intro hcq; exact hhead (by simp [hcq])
    have h1 : rsplitUU ('_' :: c :: tail) =
        match rsplitUU (c :: tail) with
        | some (l, r) => some ('_' :: l, r)
        | none => if ('_' : Char) = '_' ∧ c = '_' then some ([], tail) else none := rfl
    have h2 : rsplitUU ('_' :: '_' :: c :: tail) =
        match rsplitUU ('_' :: c :: tail) with
        | some (l, r) => some ('_' :: l, r)
        | none =>
            if ('_' : Char) = '_' ∧ ('_' : Char) = '_' then some ([], c :: tail)
            else none := rfl
    rw [h2, h1, hnone]
    simp [hc]

/-- Splitting a namespaced key built from a clean logical key recovers the
namespace and the key: proved by induction over the namespace part. -/
theorem rsplitUU_nsKey (ns : Str) {key : Str}
    (hnone : rsplitUU key = none) (hhead : key.head? ≠ some '_') :
    rsplitUU (nsKey ns key) = some (ns, key) := by
  induction ns with
  | nil => simpa [nsKey] using rsplitUU_sep hnone hhead
  | cons c rest ih =>
    have : nsKey (c :: rest) key = c :: nsKey rest key := by simp [nsKey]
    rw [this]
    exact rsplitUU_cons_of_some ih

/-- Claim C8 (amended): for every raw namespace and every logical key that
contains no two consecutive underscores and does not start with an
underscore, decoding the encoded namespaced key returns the original key. -/
theorem ns_roundtrip (rawNs key : Str) (hkey : key ≠ [])
    (hnone : rsplitUU key = none) (hhead : key.head? ≠ some '_') :
    unNsKey (normNs rawNs) (nsKey (normNs rawNs) key) = some key := by
  rw [unNsKey, rsplitUU_nsKey (normNs rawNs) hnone hhead]
  simp

/-- Witness for ns_roundtrip at namespace "default" and key "abc". -/
theorem ns_roundtrip_witness :
    (['a', 'b', 'c'] : Str) ≠ [] ∧
    unNsKey (normNs ['d', 'e', 'f', 'a', 'u', 'l', 't'])
      (nsKey (normNs ['d', 'e', 'f', 'a', 'u', 'l', 't']) ['a', 'b', 'c']) =
      some ['a', 'b', 'c'] :=
  ⟨by decide,
   ns_roundtrip ['d', 'e', 'f', 'a', 'u', 'l', 't'] ['a', 'b', 'c']
     (by decide) (by decide) (by decide)⟩

/-- Claim C8 counterexample: the key "a__b" does not survive the
namespace roundtrip because rsplit cuts at the rightmost two underscores,
so decode rejects the prefix and fails instead of returning the key. -/
theorem ns_roundtrip_cex :
    unNsKey (normNs ['d', 'e', 'f', 'a', 'u', 'l', 't'])
      (nsKey (normNs ['d', 'e', 'f', 'a', 'u', 'l', 't']) ['a', '_', '_', 'b']) =
      none := by decide

/-! ### Timestamp zero and default arguments (claim C10) -/

/-- Claim C10: at the public interface the integer timestamp 0 is
indistinguishable from an unsupplied argument — apply with t = 0 behaves
exactly like apply without a timestamp (recording at the wall-clock now),
and missing with end = 0 behaves like missing without an end (end
defaults to start). -/
theorem zero_timestamp_defaults :
    (∀ (V : Type) (bi : Tag → V → V → Option V) (un : Tag → V → Option V)
        (fr : Bool) (log : List (Int × List (Str × Tag × V)))
        (ch : List (Str × Tag × V)) (now : Int),
      applyOp bi un fr log ch (some 0) now = applyOp bi un fr log ch none now) ∧
    (∀ (V : Type) (series : List (Int × V)) (start : Int) (freq dflt : Option Int),
      missingOp series start (some 0) freq dflt =
        missingOp series start none freq dflt) ∧
    (∀ now : Int, effTs (some 0) now = now) := by
  refine ⟨fun V bi un fr log ch now => ?_, fun V series start freq dflt => ?_,
    fun now => rfl⟩
  · simp [applyOp, effTs]
  · simp [missingOp]

/-! ### Apply with an empty change set (claim C7) -/

/-- Claim C7 (amended): apply with an empty changes mapping appends no
event and leaves the log unchanged; it returns the replayed current state
unless an event already exists at the effective timestamp, in which case
even the empty append is rejected with StoreIntegrity (the backend checks
the timestamp before looking at the items). -/
theorem apply_empty_changes {V : Type} (bi : Tag → V → V → Option V)
    (un : Tag → V → Option V) (fr : Bool)
    (log : List (Int × List (Str × Tag × V))) (t : Option Int) (now : Int) :
    applyOp bi un fr log [] t now =
      ((if hasTs log (effTs t now) then Except.error SErr.storeIntegrity
        else currentOp bi un log), log) := by
  by_cases h : hasTs log (effTs t now) <;> simp [applyOp, esApplyB, h]

/-- Claim C7 counterexample: with an event already stored at the effective
timestamp, apply with empty changes raises StoreIntegrity instead of
returning the current state (which exists and is non-empty). -/
theorem apply_empty_changes_cex :
    (applyOp intBin intUn false [((100 : Int), [((['x'] : Str), Tag.set, (5 : Int))])]
        [] none 100).1 = Except.error SErr.storeIntegrity ∧
    currentOp intBin intUn [((100 : Int), [((['x'] : Str), Tag.set, (5 : Int))])] =
      Except.ok (some [(['x'], 5)]) := by decide

/-! ### Frozen stores (claim C2) -/

/-- Claim C2 (amended): set, delete, extend, remove and discard on a
frozen store fail with FrozenStore and leave the backend state unchanged;
apply and prune perform no read-only check in the source (see the
counterexample). -/
theorem frozen_rejects_mutations :
    (∀ (V : Type) (kv : List (Str × V)) (k : Str) (v : V),
      setOp true kv k v = (Except.error SErr.frozenStore, kv)) ∧
    (∀ (V : Type) (kv : List (Str × V)) (ks : List Str),
      deleteOp true kv ks = (Except.error SErr.frozenStore, kv)) ∧
    (∀ (V : Type) (series : List (Int × V)) (pts : List (Int × V)),
      extendOp true series pts = (Except.error SErr.frozenStore, series)) ∧
    (∀ (V : Type) (series : List (Int × V)) (s e dflt : Option Int),
      removeOp true series s e dflt = (Except.error SErr.frozenStore, series)) ∧
    (∀ (V : Type)
        (st : List (Str × V) × List (Int × V) × List (Int × List (Str × Tag × V))),
      discardOp true st = (Except.error SErr.frozenStore, st)) :=
  ⟨fun _ _ _ _ => rfl, fun _ _ _ => rfl, fun _ _ _ => rfl, fun _ _ _ _ _ => rfl,
   fun _ _ => rfl⟩

/-- Claim C2 counterexample: on a frozen store, apply succeeds and writes
its event, and prune of an empty-state key succeeds and erases the log —
neither raises FrozenStore, so not every mutating operation fails. -/
theorem frozen_apply_prune_cex :
    (applyOp intBin intUn true [] [((['x'] : Str), Tag.set, (1 : Int))] (some 5) 99).1 =
      Except.ok (some [(['x'], 1)]) ∧
    (applyOp intBin intUn true [] [((['x'] : Str), Tag.set, (1 : Int))] (some 5) 99).2 =
      [(5, [(['x'], Tag.set, 1)])] ∧
    (pruneOp intBin intUn true
        [((1 : Int), [((['x'] : Str), Tag.set, (5 : Int))]), (2, [(['x'], Tag.del, 0)])]
        true).1 = Except.ok () ∧
    (pruneOp intBin intUn true
        [((1 : Int), [((['x'] : Str), Tag.set, (5 : Int))]), (2, [(['x'], Tag.del, 0)])]
        true).2 = [] :=
  ⟨by decide, by decide, by decide, by decide⟩

/-! ### Duplicate timestamps on apply (claim C1) -/

theorem hasTs_insertGroup {V : Type} (log : List (Int × List (Str × Tag × V)))
    (t : Int) (g : List (Str × Tag × V)) :
    hasTs (insertGroup log t g) t = true := by
  induction log with
  | nil => simp [insertGroup, hasTs]
  | cons gp rest ih =>
    simp only [insertGroup]
    split
    · simp [hasTs]
    · simp [hasTs] at ih ⊢
      exact Or.inr ih

theorem groupAt_insertGroup {V : Type} {log : List (Int × List (Str × Tag × V))}
    {t : Int} (g : List (Str × Tag × V)) (hno : hasTs log t = false) :
    groupAt (insertGroup log t g) t = some g := by
  induction log with
  | nil => simp [insertGroup, groupAt]
  | cons gp rest ih =>
    have h1 : gp.1 ≠ t := by
      intro h
      simp [hasTs, h] at hno
    have h2 : hasTs rest t = false := by
      simp only [hasTs, List.any_cons, Bool.or_eq_false_iff] at hno
      simpa [hasTs] using hno.2
    simp only [insertGroup]
    split
    · simp [groupAt]
    · simp only [groupAt]
      rw [List.find?_cons_of_neg _ (by simp [h1])]
      simpa [groupAt] using ih h2

/-- Claim C1 (amended): for every key and every pair of apply calls with
the same explicit nonzero timestamp on that key, where the first call has
a non-empty changes mapping and succeeds, the second apply call fails
with StoreIntegrity, writes nothing (the log is unchanged), and the log
holds exactly the first call's events at that timestamp. -/
theorem apply_same_ts_rejected {V : Type} (bi : Tag → V → V → Option V)
    (un : Tag → V → Option V) (fr1 fr2 : Bool)
    (log : List (Int × List (Str × Tag × V)))
    (ch1 ch2 : List (Str × Tag × V)) (tv now1 now2 : Int)
    (htv : tv ≠ 0) (hch : ch1 ≠ [])
    (hok : ∃ st, (applyOp bi un fr1 log ch1 (some tv) now1).1 = Except.ok st)
    (log1 : List (Int × List (Str × Tag × V)))
    (hlog1 : log1 = (applyOp bi un fr1 log ch1 (some tv) now1).2) :
    (applyOp bi un fr2 log1 ch2 (some tv) now2).1 = Except.error SErr.storeIntegrity ∧
    (applyOp bi un fr2 log1 ch2 (some tv) now2).2 = log1 ∧
    groupAt log1 tv = some ch1 := by
  have heff1 : effTs (some tv) now1 = tv := by simp [effTs, htv]
  have heff2 : effTs (some tv) now2 = tv := by simp [effTs, htv]
  by_cases hdup : hasTs log tv
  · obtain ⟨st, hst⟩ := hok
    rw [show applyOp bi un fr1 log ch1 (some tv) now1 =
        (Except.error SErr.storeIntegrity, log) by
      simp [applyOp, esApplyB, heff1, hdup]] at hst
    exact absurd hst (by simp)
  · have hne : hasTs log tv = false := by simpa using hdup
    have hlog1' : log1 = insertGroup log tv ch1 := by
      rw [hlog1]
      simp [applyOp, esApplyB, heff1, hne, List.isEmpty_iff, hch]
    have hdup1 : hasTs log1 tv = true := by
      rw [hlog1']; exact hasTs_insertGroup log tv ch1
    refine ⟨?_, ?_, ?_⟩
    · simp [applyOp, esApplyB, heff2, hdup1]
    · simp [applyOp, esApplyB, heff2, hdup1]
    · rw [hlog1']; exact groupAt_insertGroup ch1 hne

/-- Witness for apply_same_ts_rejected: a concrete first write at
timestamp 5 followed by a second write at the same timestamp. -/
theorem apply_same_ts_rejected_witness :
    ((5 : Int) ≠ 0) ∧
    ([((['x'] : Str), Tag.set, (1 : Int))] ≠ []) ∧
    ((applyOp intBin intUn false [] [((['x'] : Str), Tag.set, (1 : Int))] (some 5) 99).1 =
      Except.ok (some [(['x'], 1)])) ∧
    ((applyOp intBin intUn false [((5 : Int), [((['x'] : Str), Tag.set, (1 : Int))])]
        [(['y'], Tag.set, (2 : Int))] (some 5) 98).1 = Except.error SErr.storeIntegrity ∧
      (applyOp intBin intUn false [((5 : Int), [((['x'] : Str), Tag.set, (1 : Int))])]
        [(['y'], Tag.set, (2 : Int))] (some 5) 98).2 =
        [((5 : Int), [((['x'] : Str), Tag.set, (1 : Int))])] ∧
      groupAt [((5 : Int), [((['x'] : Str), Tag.set, (1 : Int))])] 5 =
        some [(['x'], Tag.set, 1)]) :=
  ⟨by decide, by decide, by decide,
   apply_same_ts_rejected intBin intUn false false [] [(['x'], Tag.set, 1)]
     [(['y'], Tag.set, 2)] 5 99 98 (by decide) (by decide)
     ⟨some [(['x'], 1)], by decide⟩
     [((5 : Int), [((['x'] : Str), Tag.set, (1 : Int))])] (by decide)⟩

/-- Claim C1 counterexample: with the explicit timestamp 0 the two calls
land at their wall-clock times and both succeed, and a first call with an
empty changes mapping writes nothing so a second call at the same
explicit timestamp also succeeds — in both runs the second call does not
fail with StoreIntegrity. -/
theorem apply_same_ts_cex :
    ((applyOp intBin intUn false [] [((['x'] : Str), Tag.set, (1 : Int))] (some 0) 5).1 =
      Except.ok (some [(['x'], 1)])) ∧
    ((applyOp intBin intUn false
        (applyOp intBin intUn false [] [((['x'] : Str), Tag.set, (1 : Int))] (some 0) 5).2
        [(['x'], Tag.set, (2 : Int))] (some 0) 6).1 = Except.ok (some [(['x'], 2)])) ∧
    ((applyOp intBin intUn false [] ([] : List (Str × Tag × Int)) (some 7) 0).1 =
      Except.ok none) ∧
    ((applyOp intBin intUn false
        (applyOp intBin intUn false [] ([] : List (Str × Tag × Int)) (some 7) 0).2
        [((['x'] : Str), Tag.set, (2 : Int))] (some 7) 0).1 =
      Except.ok (some [(['x'], 2)])) :=
  ⟨by decide, by decide, by decide, by decide⟩

/-! ### Replay and the none/empty distinction (claims C6 and C3) -/

theorem esEvents_no_ops {V : Type} (log : List (Int × List (Str × Tag × V)))
    (t : Option Int) : esEvents log none t [] = windowUpTo log t := by
  simp [esEvents, windowUpTo]

theorem logReplay_map_ne_none {V : Type} (bi : Tag → V → V → Option V)
    (un : Tag → V → Option V) (evs : List (Int × List (Str × Tag × V)))
    (st : List (Str × V)) :
    (logReplay bi un evs st).map some ≠ Except.ok none := by
  cases h : logReplay bi un evs st <;> simp [Except.map]

/-- Claim C6: past returns none exactly when the sequence has no events
with timestamp at or before t. -/
theorem past_none_iff :
    (∀ (V : Type) (bi : Tag → V → V → Option V) (un : Tag → V → Option V)
        (log : List (Int × List (Str × Tag × V))) (tv : Int),
      pastOp bi un log (some tv) = Except.ok none ↔ ∀ gp ∈ log, tv < gp.1) ∧
    (∀ (V : Type) (bi : Tag → V → V → Option V) (un : Tag → V → Option V)
        (log : List (Int × List (Str × Tag × V))),
      pastOp bi un log none = Except.ok none ↔ log = []) ∧
    pastOp intBin intUn
        [((1 : Int), [((['x'] : Str), Tag.set, (5 : Int))]), (2, [(['x'], Tag.del, 0)])]
        none = Except.ok (some []) := by
  refine ⟨fun V bi un log tv => ?_, fun V bi un log => ?_, by decide⟩
  · by_cases hnil : log = []
    · subst hnil
      simp [pastOp, eventsOp]
    · have hne : log.isEmpty = false := by simpa [List.isEmpty_iff] using hnil
      simp only [pastOp, eventsOp, hne, Bool.false_eq_true, if_false]
      rw [esEvents_no_ops]
      by_cases hw : (windowUpTo log (some tv)).isEmpty
      · simp only [hw, if_true]
        have hw' : windowUpTo log (some tv) = [] := List.isEmpty_iff.mp hw
        constructor
        · intro _ gp hgp
          have := List.filter_eq_nil_iff.mp hw' gp hgp
          simpa using this
        · intro _; trivial
      · simp only [hw, Bool.false_eq_true, if_false]
        constructor
        · intro h
          exact absurd h (logReplay_map_ne_none bi un _ _)
        · intro hall
          exfalso
          have hw' : windowUpTo log (some tv) ≠ [] := by
            simpa [List.isEmpty_iff] using hw
          obtain ⟨gp, hgp⟩ := List.exists_mem_of_ne_nil _ hw'
          have hmem := List.mem_filter.mp hgp
          have h1 : gp.1 ≤ tv := by simpa using hmem.2
          exact absurd (hall gp hmem.1) (by omega)
  · by_cases hnil : log = []
    · subst hnil
      simp [pastOp, eventsOp]
    · have hne : log.isEmpty = false := by simpa [List.isEmpty_iff] using hnil
      simp only [pastOp, eventsOp, hne, Bool.false_eq_true, if_false]
      rw [esEvents_no_ops]
      have hwin : windowUpTo log none = log := by
        simp [windowUpTo]
      rw [hwin]
      simp only [hne, Bool.false_eq_true, if_false]
      constructor
      · intro h
        exact absurd h (logReplay_map_ne_none bi un _ _)
      · intro h; exact absurd h hnil

theorem rowsReplay_append {V : Type} (bi : Tag → V → V → Option V)
    (un : Tag → V → Option V) (xs ys : List (Int × Str × Tag × V)) :
    ∀ st, rowsReplay bi un (xs ++ ys) st =
      match rowsReplay bi un xs st with
      | .error e => .error e
      | .ok st' => rowsReplay bi un ys st' := by
  induction xs with
  | nil => intro st; simp [rowsReplay]
  | cons r rest ih =>
    intro st
    obtain ⟨t, item, tg, v⟩ := r
    simp only [List.cons_append, rowsReplay]
    cases applyRow bi un st item tg v <;> simp [ih]

theorem groupReplay_eq_rows {V : Type} (bi : Tag → V → V → Option V)
    (un : Tag → V → Option V) (t : Int) (g : List (Str × Tag × V)) :
    ∀ st, groupReplay bi un g st =
      rowsReplay bi un (g.map (fun r => (t, r))) st := by
  induction g with
  | nil => intro st; simp [groupReplay, rowsReplay]
  | cons r rest ih =>
    intro st
    obtain ⟨item, tg, v⟩ := r
    simp only [List.map_cons, groupReplay, rowsReplay]
    cases applyRow bi un st item tg v <;> simp [ih]

theorem logReplay_eq_rows {V : Type} (bi : Tag → V → V → Option V)
    (un : Tag → V → Option V) (evs : List (Int × List (Str × Tag × V))) :
    ∀ st, logReplay bi un evs st = rowsReplay bi un (flattenLog evs) st := by
  induction evs with
  | nil => intro st; simp [logReplay, flattenLog, rowsReplay]
  | cons gp rest ih =>
    intro st
    obtain ⟨t, g⟩ := gp
    simp only [logReplay, flattenLog]
    rw [rowsReplay_append, ← groupReplay_eq_rows bi un t g st]
    cases groupReplay bi un g st <;> simp [ih]

/-- Claim C3 (amended): past (and current, the unbounded case) equals the
flat fold of the window's events in stored ascending-timestamp order,
where an assign sets the item, a delete removes it and requires it to be
present, each binary tag combines the existing value with the operand and
requires the item to exist, each unary tag rewrites the existing value
ignoring the operand, and every tag outside the closed set is fatal (the
fold rowsReplay dispatches exactly this way). -/
theorem past_eq_fold {V : Type} (bi : Tag → V → V → Option V)
    (un : Tag → V → Option V) (log : List (Int × List (Str × Tag × V)))
    (t : Option Int)
    (hs : List.Chain' (fun a b => a.1 < b.1) log) :
    pastOp bi un log t =
      if (windowUpTo log t).isEmpty then Except.ok none
      else (rowsReplay bi un (flattenLog (windowUpTo log t)) []).map some := by
  by_cases hnil : log = []
  · subst hnil
    simp [pastOp, eventsOp, windowUpTo]
  · have hne : log.isEmpty = false := by simpa [List.isEmpty_iff] using hnil
    simp only [pastOp, eventsOp, hne, Bool.false_eq_true, if_false]
    rw [esEvents_no_ops]
    by_cases hw : (windowUpTo log t).isEmpty
    · simp [hw]
    · have hw' : (windowUpTo log t).isEmpty = false := by simpa using hw
      simp only [hw', Bool.false_eq_true, if_false]
      rw [logReplay_eq_rows]

/-- Witness for past_eq_fold at a sorted two-event log. -/
theorem past_eq_fold_witness :
    List.Chain' (fun (a b : Int × List (Str × Tag × Int)) => a.1 < b.1)
      [(1, [(['x'], Tag.set, 5)]), (2, [(['x'], Tag.add, 3)])] ∧
    pastOp intBin intUn [(1, [(['x'], Tag.set, 5)]), (2, [(['x'], Tag.add, 3)])]
        (some 2) =
      if (windowUpTo [((1 : Int), [((['x'] : Str), Tag.set, (5 : Int))]),
          (2, [(['x'], Tag.add, 3)])] (some 2)).isEmpty then Except.ok none
      else (rowsReplay intBin intUn
        (flattenLog (windowUpTo [((1 : Int), [((['x'] : Str), Tag.set, (5 : Int))]),
          (2, [(['x'], Tag.add, 3)])] (some 2))) []).map some :=
  ⟨List.chain'_pair.mpr (by decide),
   past_eq_fold intBin intUn
     [(1, [(['x'], Tag.set, 5)]), (2, [(['x'], Tag.add, 3)])] (some 2)
     (List.chain'_pair.mpr (by decide))⟩

/-- Claim C3 counterexample: a delete event for an item that is not in
the state makes replay fail with the uncaught KeyError, while the fold
the claim describes (delete merely removes the item) yields the empty
state — past does not equal that fold. -/
theorem past_delete_missing_cex :
    pastOp intBin intUn [((1 : Int), [((['x'] : Str), Tag.del, (0 : Int))])] none =
      Except.error SErr.keyError ∧
    rowsReplayClaim intBin intUn
      (flattenLog [((1 : Int), [((['x'] : Str), Tag.del, (0 : Int))])]) [] =
      Except.ok [] :=
  ⟨by decide, by decide⟩

/-! ### Range decimation (claim C4) -/

theorem decimate_mem_le {V : Type} {f : Int} (hf : 0 < f) (n : Option Nat) :
    ∀ (pts : List (Int × V)) (step : Int) (cnt : Nat) (p : Int × V),
      p ∈ decimate n (some f) step cnt pts → step ≤ p.1
  | [], step, cnt, p => by simp [decimate]
  | (t, v) :: rest, step, cnt, p => by
    simp only [decimate]
    split
    case isTrue h =>
      intro hp
      rcases List.mem_cons.mp hp with rfl | hmem
      · exact h
      · split at hmem
        · simp at hmem
        · have := decimate_mem_le hf n rest (t + f) (cnt + 1) p hmem
          omega
    case isFalse h =>
      intro hp
      exact decimate_mem_le hf n rest step cnt p hp

theorem decimate_chain {V : Type} {f : Int} (hf : 0 < f) (n : Option Nat) :
    ∀ (pts : List (Int × V)) (step : Int) (cnt : Nat),
      List.Chain' (fun p q => p.1 + f ≤ q.1) (decimate n (some f) step cnt pts)
  | [], step, cnt => by simp [decimate]
  | (t, v) :: rest, step, cnt => by
    simp only [decimate]
    split
    case isTrue h =>
      split
      case isTrue h2 => simp
      case isFalse h2 =>
        refine List.chain'_cons'.mpr ⟨?_, decimate_chain hf n rest (t + f) (cnt + 1)⟩
        intro q hq
        exact decimate_mem_le hf n rest (t + f) (cnt + 1) q (List.mem_of_mem_head? hq)
    case isFalse h => exact decimate_chain hf n rest step cnt

theorem decimate_take {V : Type} (freq : Option Int) {n : Nat} :
    ∀ (pts : List (Int × V)) (step : Int) (cnt : Nat), cnt < n →
      decimate (some n) freq step cnt pts =
        (decimate none freq step cnt pts).take (n - cnt)
  | [], step, cnt, h => by simp [decimate]
  | (t, v) :: rest, step, cnt, h => by
    simp only [decimate]
    split
    case isTrue hst =>
      by_cases hn : n = cnt + 1
      · have h1 : n - cnt = 1 := by omega
        simp [hn, h1]
      · have hcnt : cnt + 1 < n := by omega
        have h2 : n - cnt = (n - (cnt + 1)) + 1 := by omega
        rw [decimate_take freq rest _ (cnt + 1) hcnt]
        simp only [h2]
        simp [List.take, hn]
    case isFalse hst => exact decimate_take freq rest step cnt h

theorem decimate_sub {V : Type} (n : Option Nat) (freq : Option Int) :
    ∀ (pts : List (Int × V)) (step : Int) (cnt : Nat) (p : Int × V),
      p ∈ decimate n freq step cnt pts → p ∈ pts
  | [], step, cnt, p => by simp [decimate]
  | (t, v) :: rest, step, cnt, p => by
    simp only [decimate]
    split
    case isTrue h =>
      intro hp
      rcases List.mem_cons.mp hp with rfl | hmem
      · exact List.mem_cons_self _ _
      · split at hmem
        · simp at hmem
        · exact List.mem_cons_of_mem _ (decimate_sub n freq rest _ _ p hmem)
    case isFalse h =>
      intro hp
      exact List.mem_cons_of_mem _ (decimate_sub n freq rest step cnt p hp)

theorem rangeEx_props {V : Type} (series : List (Int × V)) (s' e' : Int)
    (freq dflt : Option Int) {f : Int} {n : Nat}
    (hf : pyOr freq dflt = some f) (hfpos : 0 < f) (hn : 0 < n) :
    List.Chain' (fun p q => p.1 + f ≤ q.1) (rangeEx series s' e' none freq dflt) ∧
    rangeEx series s' e' (some n) freq dflt =
      (rangeEx series s' e' none freq dflt).take n ∧
    ∀ p ∈ rangeEx series s' e' none freq dflt, p ∈ series := by
  unfold rangeEx
  rw [hf]
  split
  · simp
  · refine ⟨decimate_chain hfpos none _ 0 0, ?_, ?_⟩
    · rw [decimate_take (some f) _ 0 0 hn]
      simp
    · intro p hp
      have := decimate_sub none (some f) _ 0 0 p hp
      exact (List.mem_filter.mp this).1

theorem rangeFrom_props {V : Type} (series : List (Int × V)) (s' : Int)
    (e : Option Int) (freq dflt : Option Int) {f : Int} {n : Nat}
    (hf : pyOr freq dflt = some f) (hfpos : 0 < f) (hn : 0 < n) :
    ∀ r, rangeFrom series s' e none freq dflt = Except.ok r →
      List.Chain' (fun p q => p.1 + f ≤ q.1) r ∧
      rangeFrom series s' e (some n) freq dflt = Except.ok (r.take n) ∧
      ∀ p ∈ r, p ∈ series := by
  unfold rangeFrom
  cases e with
  | some e' =>
    intro r hr
    obtain rfl : rangeEx series s' e' none freq dflt = r := by
      simpa using hr
    obtain ⟨h1, h2, h3⟩ := rangeEx_props series s' e' freq dflt hf hfpos hn
    exact ⟨h1, by simp [h2], h3⟩
  | none =>
    cases hlast : lastOp series dflt with
    | error err => intro r hr; simp at hr
    | ok q =>
      cases q with
      | none =>
        intro r hr
        obtain rfl : ([] : List (Int × V)) = r := by simpa using hr
        simp
      | some q =>
        intro r hr
        obtain rfl : rangeEx series s' q.1 none freq dflt = r := by simpa using hr
        obtain ⟨h1, h2, h3⟩ := rangeEx_props series s' q.1 freq dflt hf hfpos hn
        exact ⟨h1, by simp [hlast, h2], h3⟩

/-- Claim C4 (amended): with an active positive frequency f, range
returns an ascending list with at most one point per f-wide window
(consecutive emitted timestamps differ by at least f), every returned
point is a stored point, and with a positive n the result is exactly the
first n points of the unlimited query, i.e. emission stops as soon as n
points have been emitted.  (n = 0 is falsy for the stop test and behaves
as no limit, see the counterexample.) -/
theorem range_decimation {V : Type} (series : List (Int × V))
    (s e : Option Int) (freq dflt : Option Int) {f : Int} {n : Nat}
    (hf : pyOr freq dflt = some f) (hfpos : 0 < f) (hn : 0 < n) :
    ∀ r, rangeOp series s e none freq dflt = Except.ok r →
      List.Chain' (fun p q => p.1 + f ≤ q.1) r ∧
      rangeOp series s e (some n) freq dflt = Except.ok (r.take n) ∧
      ∀ p ∈ r, p ∈ series := by
  unfold rangeOp
  cases s with
  | some s' => exact rangeFrom_props series s' e freq dflt hf hfpos hn
  | none =>
    cases hfirst : firstOp series dflt with
    | error err => intro r hr; simp at hr
    | ok q =>
      cases q with
      | none =>
        intro r hr
        obtain rfl : ([] : List (Int × V)) = r := by simpa using hr
        simp
      | some p =>
        exact rangeFrom_props series p.1 e freq dflt hf hfpos hn

/-- Witness for range_decimation on a concrete three-point series with
frequency 10 and limit 2. -/
theorem range_decimation_witness :
    pyOr none (some 10) = some (10 : Int) ∧ (0 : Int) < 10 ∧ (0 : Nat) < 2 ∧
    (rangeOp [((100 : Int), (0 : Int)), (110, 1), (120, 2)] none none none none
        (some 10) = Except.ok [(100, 0), (110, 1), (120, 2)]) ∧
    (List.Chain' (fun p q => p.1 + 10 ≤ q.1)
        [((100 : Int), (0 : Int)), (110, 1), (120, 2)] ∧
      rangeOp [((100 : Int), (0 : Int)), (110, 1), (120, 2)] none none (some 2) none
          (some 10) =
        Except.ok ([((100 : Int), (0 : Int)), (110, 1), (120, 2)].take 2) ∧
      ∀ p ∈ [((100 : Int), (0 : Int)), (110, 1), (120, 2)],
        p ∈ [((100 : Int), (0 : Int)), (110, 1), (120, 2)]) :=
  ⟨by decide, by decide, by decide, by decide,
   range_decimation [((100 : Int), (0 : Int)), (110, 1), (120, 2)] none none none
     (some 10) (by decide) (by decide) (by decide)
     [(100, 0), (110, 1), (120, 2)] (by decide)⟩

/-- Claim C4 counterexample: with n = 0 the stop test len(found) == n
never fires (the first emission already has length 1), so range emits
every decimated point instead of stopping after zero emissions. -/
theorem range_zero_n_cex :
    rangeOp [((1 : Int), (10 : Int)), (2, 20)] (some 1) (some 2) (some 0) (some 1)
        none = Except.ok [(1, 10), (2, 20)] ∧
    ([((1 : Int), (10 : Int)), (2, 20)].length = 2) :=
  ⟨by decide, by decide⟩

/-! ### Missing grid timestamps (claim C5) -/

theorem intRange_mem {a b s : Int} (hs : 0 < s) (x : Int) :
    x ∈ intRange a b s ↔ ∃ k : ℕ, x = a + k * s ∧ x < b := by
  have hM : 0 < s.toNat := by omega
  have hM' : ((s.toNat : ℕ) : Int) = s := Int.toNat_of_nonneg hs.le
  have hkey : ∀ k : ℕ, k < ((b - a).toNat + s.toNat - 1) / s.toNat ↔ a + k * s < b := by
    intro k
    constructor
    · intro hk
      have h1 : (k + 1) * s.toNat ≤ (b - a).toNat + s.toNat - 1 :=
        (Nat.le_div_iff_mul_le hM).mp (Nat.succ_le_of_lt hk)
      rw [Nat.succ_mul] at h1
      have h2 : k * s.toNat < (b - a).toNat := by
        generalize hK : k * s.toNat = K at h1 ⊢
        omega
      have hba : 0 ≤ b - a := by
        have h0 : 0 < (b - a).toNat := Nat.lt_of_le_of_lt (Nat.zero_le _) h2
        omega
      have h3 : ((k * s.toNat : ℕ) : Int) < (((b - a).toNat : ℕ) : Int) := by
        exact_mod_cast h2
      rw [Int.toNat_of_nonneg hba] at h3
      push_cast at h3
      rw [hM'] at h3
      linarith
    · intro hlt
      have h3 : (k : Int) * s < b - a := by linarith
      have hba : 0 ≤ b - a := by
        have h0 : (0 : Int) ≤ (k : Int) * s := by positivity
        linarith
      have h2 : k * s.toNat < (b - a).toNat := by
        have h4 : ((k * s.toNat : ℕ) : Int) < (((b - a).toNat : ℕ) : Int) := by
          push_cast
          rw [hM', Int.toNat_of_nonneg hba]
          exact h3
        exact_mod_cast h4
      have h1 : (k + 1) * s.toNat ≤ (b - a).toNat + s.toNat - 1 := by
        rw [Nat.succ_mul]
        generalize hK : k * s.toNat = K at h2 ⊢
        omega
      exact Nat.lt_of_succ_le ((Nat.le_div_iff_mul_le hM).mpr h1)
  unfold intRange
  rw [if_pos hs]
  constructor
  · intro hx
    obtain ⟨k, hk, hfk⟩ := List.mem_map.mp hx
    exact ⟨k, hfk.symm, hfk ▸ (hkey k).mp (List.mem_range.mp hk)⟩
  · rintro ⟨k, rfl, hlt⟩
    exact List.mem_map.mpr ⟨k, List.mem_range.mpr ((hkey k).mpr hlt), rfl⟩

/-- Claim C5 (amended): missing returns exactly the timestamps of the
Python grid range(start, end + freq, freq) — the arithmetic sequence from
start whose members are below end + freq, which includes end when end
lies on the grid and can exceed end otherwise — that are absent from the
decimated range query over the same window; over that grid, missing and
the emitted range timestamps are complementary. -/
theorem missing_grid {V : Type} (series : List (Int × V)) (start : Int)
    {e f : Int} (dflt : Option Int) (hf : 0 < f) (he : e ≠ 0) :
    missingOp series start (some e) (some f) dflt =
      some ((intRange start (e + f) f).filter
        (fun ts =>
          decide (ts ∉ (rangeEx series start e none (some f) dflt).map Prod.fst))) ∧
    (∀ ts : Int, ts ∈ (missingOp series start (some e) (some f) dflt).getD [] ↔
      ((∃ k : ℕ, ts = start + k * f ∧ ts < e + f) ∧
        ts ∉ (rangeEx series start e none (some f) dflt).map Prod.fst)) ∧
    (∀ ts : Int, (∃ k : ℕ, ts = start + k * f ∧ ts < e + f) →
      (ts ∈ (missingOp series start (some e) (some f) dflt).getD [] ↔
        ts ∉ (rangeEx series start e none (some f) dflt).map Prod.fst)) := by
  have hfz : f ≠ 0 := by omega
  have hpy : pyOr (some f) dflt = some f := by simp [pyOr, hfz]
  have hmiss : missingOp series start (some e) (some f) dflt =
      some ((intRange start (e + f) f).filter
        (fun ts =>
          decide (ts ∉ (rangeEx series start e none (some f) dflt).map Prod.fst))) := by
    unfold missingOp
    simp only [hpy, if_neg hfz, if_neg he]
  have hmem : ∀ ts : Int,
      ts ∈ (missingOp series start (some e) (some f) dflt).getD [] ↔
      ((∃ k : ℕ, ts = start + k * f ∧ ts < e + f) ∧
        ts ∉ (rangeEx series start e none (some f) dflt).map Prod.fst) := by
    intro ts
    rw [hmiss]
    simp only [Option.getD_some, List.mem_filter, decide_eq_true_eq]
    rw [intRange_mem hf]
  exact ⟨hmiss, hmem, fun ts hk =>
    ⟨fun h => ((hmem ts).mp h).2, fun h => (hmem ts).mpr ⟨hk, h⟩⟩⟩

/-- Witness for missing_grid on an empty series over the window 0..20
with frequency 10. -/
theorem missing_grid_witness :
    (0 : Int) < 10 ∧ (20 : Int) ≠ 0 ∧
    (missingOp ([] : List (Int × Int)) 0 (some 20) (some 10) none =
        some ((intRange 0 (20 + 10) 10).filter
          (fun ts =>
            decide (ts ∉ (rangeEx ([] : List (Int × Int)) 0 20 none (some 10)
              none).map Prod.fst))) ∧
      (∀ ts : Int,
        ts ∈ (missingOp ([] : List (Int × Int)) 0 (some 20) (some 10) none).getD [] ↔
        ((∃ k : ℕ, ts = 0 + k * 10 ∧ ts < 20 + 10) ∧
          ts ∉ (rangeEx ([] : List (Int × Int)) 0 20 none (some 10) none).map
            Prod.fst)) ∧
      (∀ ts : Int, (∃ k : ℕ, ts = 0 + k * 10 ∧ ts < 20 + 10) →
        (ts ∈ (missingOp ([] : List (Int × Int)) 0 (some 20) (some 10) none).getD [] ↔
          ts ∉ (rangeEx ([] : List (Int × Int)) 0 20 none (some 10) none).map
            Prod.fst))) :=
  ⟨by decide, by decide,
   missing_grid ([] : List (Int × Int)) 0 none (by decide) (by decide)⟩

/-- Claim C5 counterexample: with start 0, end 5 and frequency 10 on an
empty series, missing returns the timestamps 0 and 10 — the grid follows
Python range(start, end + freq, freq) and 10 exceeds end, so not every
returned timestamp lies in the closed window from start to end. -/
theorem missing_overshoot_cex :
    missingOp ([] : List (Int × Int)) 0 (some 5) (some 10) none = some [0, 10] ∧
    ¬ ((10 : Int) ≤ 5) :=
  ⟨by decide, by decide⟩

/-! ### Pattern search (claim C9) -/

theorem splits_mem : ∀ (s p q : Str), (p, q) ∈ splits s ↔ s = p ++ q
  | [], p, q => by
    simp only [splits, List.mem_singleton, Prod.mk.injEq]
    constructor
    · rintro ⟨rfl, rfl⟩; rfl
    · intro h
      exact List.append_eq_nil.mp h.symm
  | c :: s, p, q => by
    simp only [splits, List.mem_cons, List.mem_map, Prod.mk.injEq]
    constructor
    · rintro (⟨rfl, rfl⟩ | ⟨⟨p', q'⟩, hmem, rfl, rfl⟩)
      · rfl
      · have hs : s = p' ++ q' := (splits_mem s p' q').mp hmem
        rw [hs]
        rfl
    · intro h
      cases p with
      | nil =>
        left
        exact ⟨rfl, by simpa using h.symm⟩
      | cons c' p' =>
        simp only [List.cons_append, List.cons.injEq] at h
        obtain ⟨rfl, hs⟩ := h
        right
        exact ⟨(p', q), (splits_mem s p' q).mpr hs, rfl, rfl⟩

theorem rlang_nil_iff {p : Str} : RLang [] p ↔ p = [] := by
  constructor
  · intro h; cases h; rfl
  · rintro rfl; exact RLang.nil

theorem rlang_once_iff {a : RAtom} {ts : List RTok} {p : Str} :
    RLang (.once a :: ts) p ↔
      ∃ c p', p = c :: p' ∧ atomMatch a c = true ∧ RLang ts p' := by
  constructor
  · intro h
    cases h with
    | once h1 h2 => exact ⟨_, _, rfl, h1, h2⟩
  · rintro ⟨c, p', rfl, h1, h2⟩
    exact RLang.once h1 h2

theorem rlang_opt_iff {a : RAtom} {ts : List RTok} {p : Str} :
    RLang (.opt a :: ts) p ↔
      RLang ts p ∨ ∃ c p', p = c :: p' ∧ atomMatch a c = true ∧ RLang ts p' := by
  constructor
  · intro h
    cases h with
    | optSkip h => exact Or.inl h
    | optTake h1 h2 => exact Or.inr ⟨_, _, rfl, h1, h2⟩
  · rintro (h | ⟨c, p', rfl, h1, h2⟩)
    · exact RLang.optSkip h
    · exact RLang.optTake h1 h2

theorem rlang_star_elim {L : List RTok} {p : Str} (h : RLang L p) :
    ∀ {a : RAtom} {ts : List RTok}, L = .star a :: ts →
      ∃ u v, p = u ++ v ∧ u.all (atomMatch a) = true ∧ RLang ts v := by
  induction h with
  | nil => intro a ts heq; exact absurd heq (by simp)
  | once h1 h2 ih => intro a ts heq; exact absurd heq (by simp)
  | optSkip h ih => intro a ts heq; exact absurd heq (by simp)
  | optTake h1 h2 ih => intro a ts heq; exact absurd heq (by simp)
  | @starSkip a' ts' s h ih =>
    intro a ts heq
    injection heq with e1 e2
    injection e1 with e3
    subst e3; subst e2
    exact ⟨[], s, rfl, rfl, h⟩
  | @starTake a' c ts' s h1 h2 ih =>
    intro a ts heq
    injection heq with e1 e2
    injection e1 with e3
    subst e3; subst e2
    obtain ⟨u, v, hs, hall, hv⟩ := ih rfl
    refine ⟨c :: u, v, ?_, ?_, hv⟩
    · rw [hs]; rfl
    · simp [List.all_cons, h1, hall]

theorem rlang_star_intro {a : RAtom} {ts : List RTok} {u v : Str}
    (hall : u.all (atomMatch a) = true) (hv : RLang ts v) :
    RLang (.star a :: ts) (u ++ v) := by
  induction u with
  | nil => exact RLang.starSkip hv
  | cons c u ih =>
    simp only [List.all_cons, Bool.and_eq_true] at hall
    exact RLang.starTake hall.1 (ih hall.2)

theorem rlang_star_iff {a : RAtom} {ts : List RTok} {p : Str} :
    RLang (.star a :: ts) p ↔
      ∃ u v, p = u ++ v ∧ u.all (atomMatch a) = true ∧ RLang ts v := by
  constructor
  · intro h; exact rlang_star_elim h rfl
  · rintro ⟨u, v, rfl, hall, hv⟩; exact rlang_star_intro hall hv

/-- Correctness of the executable matcher against the declarative token
semantics: reMatch accepts exactly the strings with a prefix in the token
list's language (re.match anchors at the start only). -/
theorem reMatch_iff : ∀ (ts : List RTok) (s : Str),
    reMatch ts s = true ↔ ∃ p q, s = p ++ q ∧ RLang ts p := by
  intro ts
  induction ts with
  | nil =>
    intro s
    exact iff_of_true rfl ⟨[], s, rfl, RLang.nil⟩
  | cons t ts ih =>
    cases t with
    | once a =>
      intro s
      cases s with
      | nil =>
        refine iff_of_false (by simp [reMatch]) ?_
        rintro ⟨p, q, hpq, hp⟩
        obtain ⟨rfl, rfl⟩ := List.append_eq_nil.mp hpq.symm
        rw [rlang_once_iff] at hp
        obtain ⟨c, p', hcp, _⟩ := hp
        exact absurd hcp (by simp)
      | cons c s' =>
        simp only [reMatch, Bool.and_eq_true, ih s']
        constructor
        · rintro ⟨h1, p, q, rfl, hp⟩
          exact ⟨c :: p, q, rfl, RLang.once h1 hp⟩
        · rintro ⟨p, q, hpq, hp⟩
          rw [rlang_once_iff] at hp
          obtain ⟨c0, p', rfl, h1, h2⟩ := hp
          simp only [List.cons_append, List.cons.injEq] at hpq
          obtain ⟨rfl, rfl⟩ := hpq
          exact ⟨h1, p', q, rfl, h2⟩
    | opt a =>
      intro s
      cases s with
      | nil =>
        simp only [reMatch, ih []]
        constructor
        · rintro ⟨p, q, hpq, hp⟩
          obtain ⟨rfl, rfl⟩ := List.append_eq_nil.mp hpq.symm
          exact ⟨[], [], rfl, RLang.optSkip hp⟩
        · rintro ⟨p, q, hpq, hp⟩
          obtain ⟨rfl, rfl⟩ := List.append_eq_nil.mp hpq.symm
          rw [rlang_opt_iff] at hp
          rcases hp with h | ⟨c, p', hcp, _⟩
          · exact ⟨[], [], rfl, h⟩
          · exact absurd hcp (by simp)
      | cons c s' =>
        simp only [reMatch, Bool.or_eq_true, Bool.and_eq_true, ih (c :: s'), ih s']
        constructor
        · rintro (⟨p, q, hpq, hp⟩ | ⟨h1, p, q, rfl, hp⟩)
          · exact ⟨p, q, hpq, RLang.optSkip hp⟩
          · exact ⟨c :: p, q, rfl, RLang.optTake h1 hp⟩
        · rintro ⟨p, q, hpq, hp⟩
          rw [rlang_opt_iff] at hp
          rcases hp with h | ⟨c0, p', rfl, h1, h2⟩
          · exact Or.inl ⟨p, q, hpq, h⟩
          · simp only [List.cons_append, List.cons.injEq] at hpq
            obtain ⟨rfl, rfl⟩ := hpq
            exact Or.inr ⟨h1, p', q, rfl, h2⟩
    | star a =>
      intro s
      simp only [reMatch, List.any_eq_true]
      constructor
      · rintro ⟨⟨u, w⟩, hmem, hcond⟩
        rw [Bool.and_eq_true] at hcond
        obtain ⟨hall, hm⟩ := hcond
        have hs : s = u ++ w := (splits_mem s u w).mp hmem
        obtain ⟨p, q, rfl, hp⟩ := (ih w).mp hm
        refine ⟨u ++ p, q, ?_, rlang_star_intro hall hp⟩
        rw [hs, List.append_assoc]
      · rintro ⟨p, q, hpq, hp⟩
        rw [rlang_star_iff] at hp
        obtain ⟨u, v, rfl, hall, hv⟩ := hp
        refine ⟨(u, v ++ q), ?_, ?_⟩
        · exact (splits_mem s u (v ++ q)).mpr (by rw [hpq, List.append_assoc])
        · rw [Bool.and_eq_true]
          exact ⟨hall, (ih (v ++ q)).mpr ⟨v, q, rfl, hv⟩⟩

/-- Claim C9 (amended): for a pattern made of glob-safe characters whose
translation lexes, find returns exactly the pairs whose full logical key
has a prefix in the translated pattern's language — matching is anchored
at the start only, star matches any newline-free run, a literal dot in
the pattern matches only a dot, and the question mark (left untranslated)
makes the preceding element optional instead of matching exactly one
character; find with no pattern returns all pairs. -/
theorem find_matches {V : Type} (p : Str) (toks : List RTok)
    (kv : List (Str × V))
    (hsafe : p.all globSafe = true)
    (hlex : lexRe (translateGlob p) = some toks) :
    (∀ k v, (k, v) ∈ (findOp (some p) kv).getD [] ↔
      ((k, v) ∈ kv ∧ ∃ u w, k = u ++ w ∧ RLang toks u)) ∧
    findOp (V := V) none kv = some kv := by
  constructor
  · intro k v
    simp only [findOp, hlex, Option.getD_some]
    rw [List.mem_filter]
    constructor
    · rintro ⟨hkv, hm⟩
      obtain ⟨u, w, hk, hu⟩ := (reMatch_iff toks k).mp hm
      exact ⟨hkv, u, w, hk, hu⟩
    · rintro ⟨hkv, u, w, hk, hu⟩
      exact ⟨hkv, (reMatch_iff toks k).mpr ⟨u, w, hk, hu⟩⟩
  · rfl

/-- Witness for find_matches with the pattern test-dot-star over a
two-key store. -/
theorem find_matches_witness :
    (['t', 'e', 's', 't', '.', '*'] : Str).all globSafe = true ∧
    lexRe (translateGlob ['t', 'e', 's', 't', '.', '*']) =
      some [RTok.once (RAtom.lit 't'), RTok.once (RAtom.lit 'e'),
        RTok.once (RAtom.lit 's'), RTok.once (RAtom.lit 't'),
        RTok.once (RAtom.lit '.'), RTok.star RAtom.dot] ∧
    ((∀ k v, (k, v) ∈ (findOp (some ['t', 'e', 's', 't', '.', '*'])
        [((['t', 'e', 's', 't', '.', 'k'] : Str), (1 : Int)), (['z'], 2)]).getD [] ↔
      ((k, v) ∈ [((['t', 'e', 's', 't', '.', 'k'] : Str), (1 : Int)), (['z'], 2)] ∧
        ∃ u w, k = u ++ w ∧
          RLang [RTok.once (RAtom.lit 't'), RTok.once (RAtom.lit 'e'),
            RTok.once (RAtom.lit 's'), RTok.once (RAtom.lit 't'),
            RTok.once (RAtom.lit '.'), RTok.star RAtom.dot] u)) ∧
      findOp (V := Int) none
        [((['t', 'e', 's', 't', '.', 'k'] : Str), (1 : Int)), (['z'], 2)] =
        some [((['t', 'e', 's', 't', '.', 'k'] : Str), (1 : Int)), (['z'], 2)]) :=
  ⟨by decide, by decide,
   find_matches ['t', 'e', 's', 't', '.', '*']
     [RTok.once (RAtom.lit 't'), RTok.once (RAtom.lit 'e'),
       RTok.once (RAtom.lit 's'), RTok.once (RAtom.lit 't'),
       RTok.once (RAtom.lit '.'), RTok.star RAtom.dot]
     [((['t', 'e', 's', 't', '.', 'k'] : Str), (1 : Int)), (['z'], 2)]
     (by decide) (by decide)⟩

/-- Claim C9 counterexample: the pattern consisting of the single letter
a should glob-match only the key a, but find keeps the key ab because
re.match anchors at the start only — the pair is returned although its
full key does not match the glob pattern. -/
theorem find_prefix_cex :
    findOp (some ['a']) [((['a', 'b'] : Str), (0 : Int))] = some [(['a', 'b'], 0)] ∧
    globSpecMatch ['a'] ['a', 'b'] = false :=
  ⟨by decide, by decide⟩
